import Mathlib

/-!
Verification development for `src/acast_dl.py`, a single-file podcast
downloader.  The Python code is shallowly embedded: every network or
filesystem effect is made explicit.

* `feedparser.parse(url, etag=..., modified=...)` becomes an oracle
  `parse : Option String → Option String → ParsedFeed`, a function of the
  validator tokens sent with the conditional request.
* The JSON cache file becomes an association list from URL to validator;
  `_save_cache` (write-through persistence) is modelled by prepending the
  whole mapping to a list of persisted snapshots.
* The filesystem becomes an association list from path to file content;
  a file content carries the downloaded audio bytes and the optional
  embedded tag container.
* `urlopen` of an audio URL becomes `Except NetError HttpResponse`: either
  a raised network error, or a response with a status, a chunk list, and
  an optional point at which reading/writing raises (the code catches all
  such exceptions, so the embedded functions are total).
-/

namespace AcastDl

/-- The `{etag, modified}` pair stored per feed URL in `rss_cache.json`. -/
structure Validator where
  etag : Option String
  modified : Option String
deriving Repr, DecidableEq

/-- One element of `entry.links` as read by `get_audio_url`. -/
structure Link where
  type : String
  href : String
deriving Repr, DecidableEq

/-- A feed entry, with exactly the fields the script reads.  Fields the code
reads via `entry.get(key, default)` are given the default when the key is
missing (`published`, `description` default to `""`); `author` and `image`
are `Option` because the code falls back on the feed author resp. `None`.
`acast_episodeid` is read via attribute access and tested for truthiness, so
the empty string models a missing/falsy episode id. -/
structure Entry where
  title : String
  published : String
  author : Option String
  description : String
  link : String
  image : Option String
  links : List Link
  acast_episodeid : String
deriving Repr, DecidableEq

/-- The result of `feedparser.parse`: the HTTP status when one was obtained
(`none` for a failed/unreachable fetch), the new validator tokens when the
response carried them, and the parsed feed-level fields and entries. -/
structure ParsedFeed where
  status : Option Nat
  etag : Option String
  modified : Option String
  title : String
  author : String
  entries : List Entry
deriving Repr, DecidableEq

/-- Lookup in a string-keyed association list (Python `dict` access). -/
def lookupA {α : Type} (l : List (String × α)) (k : String) : Option α :=
  (l.find? (fun p => p.1 == k)).map (fun p => p.2)

/-- Removal of a key (Python `del` / absence after overwrite). -/
def removeA {α : Type} (l : List (String × α)) (k : String) : List (String × α) :=
  l.filter (fun p => p.1 != k)

/-- Key assignment, `d[k] = v`: lookups afterwards see `v` at `k` and the
previous binding of every other key. -/
def setA {α : Type} (l : List (String × α)) (k : String) (v : α) : List (String × α) :=
  (k, v) :: removeA l k

theorem lookupA_setA_self {α : Type} (l : List (String × α)) (k : String) (v : α) :
    lookupA (setA l k v) k = some v := by
  simp [lookupA, setA, List.find?]

theorem lookupA_removeA_self {α : Type} (l : List (String × α)) (k : String) :
    lookupA (removeA l k) k = none := by
  induction l with
  | nil => rfl
  | cons a t ih =>
    by_cases hak : a.1 = k
    · rw [removeA, List.filter_cons_of_neg (by simp [hak])]
      exact ih
    · rw [removeA, List.filter_cons_of_pos (by simp [hak])]
      show lookupA (a :: removeA t k) k = none
      rw [lookupA, List.find?_cons_of_neg _ (by simp [hak])]
      exact ih

theorem lookupA_removeA_ne {α : Type} (l : List (String × α)) (k k' : String)
    (h : k' ≠ k) : lookupA (removeA l k) k' = lookupA l k' := by
  induction l with
  | nil => rfl
  | cons a t ih =>
    by_cases hak : a.1 = k
    · have hak' : ¬ a.1 = k' := fun hc => h (hc.symm.trans hak)
      rw [removeA, List.filter_cons_of_neg (by simp [hak])]
      rw [show lookupA (a :: t) k' = lookupA t k' from by
        rw [lookupA, List.find?_cons_of_neg _ (by simp [hak'])]; rfl]
      exact ih
    · rw [removeA, List.filter_cons_of_pos (by simp [hak])]
      by_cases hak' : a.1 = k'
      · show lookupA (a :: removeA t k) k' = lookupA (a :: t) k'
        rw [lookupA, lookupA, List.find?_cons_of_pos _ (by simp [hak']),
          List.find?_cons_of_pos _ (by simp [hak'])]
      · show lookupA (a :: removeA t k) k' = lookupA (a :: t) k'
        rw [lookupA, lookupA, List.find?_cons_of_neg _ (by simp [hak']),
          List.find?_cons_of_neg _ (by simp [hak'])]
        exact ih

theorem lookupA_setA_ne {α : Type} (l : List (String × α)) (k k' : String) (v : α)
    (h : k' ≠ k) : lookupA (setA l k v) k' = lookupA l k' := by
  have h2 : (k == k') = false := by simp; exact fun hc => h hc.symm
  simp only [lookupA, setA, List.find?_cons, h2]
  exact lookupA_removeA_ne l k k' h

theorem lookupA_setA_pres {α : Type} (l : List (String × α)) (k k' : String) (v : α)
    (h : lookupA l k' ≠ none) : lookupA (setA l k v) k' ≠ none := by
  by_cases hk : k' = k
  · subst hk; simp [lookupA_setA_self]
  · rw [lookupA_setA_ne l k k' v hk]; exact h

/-- The in-memory cache of `CachedRSSFeed`: feed URL → validator. -/
abbrev Cache := List (String × Validator)

/-- Cache state: the in-memory mapping plus the persisted snapshots written
by `_save_cache`, most recent first. -/
structure CacheState where
  cache : Cache
  saved : List Cache
deriving Repr, DecidableEq

/-- `self.cache.get(url, {}).get(field)` -/
def cacheGet (c : Cache) (url : String) : Option Validator := lookupA c url

/-- `CachedRSSFeed.fetch` (src/acast_dl.py lines 39-55): reads the stored
validator tokens, performs the conditional fetch (`parse`), returns `none`
untouched on a 304, and otherwise overwrites the stored validator for the
URL with whatever tokens the parse result carries, persists the whole
mapping immediately, and returns the parsed feed. -/
def CachedRSSFeed.fetch (parse : Option String → Option String → ParsedFeed)
    (url : String) (st : CacheState) : Option ParsedFeed × CacheState :=
  let etag := (cacheGet st.cache url).bind Validator.etag
  let modified := (cacheGet st.cache url).bind Validator.modified
  let feed := parse etag modified
  if feed.status = some 304 then
    (none, st)
  else
    let c := setA st.cache url ⟨feed.etag, feed.modified⟩
    (some feed, ⟨c, c :: st.saved⟩)

/-- C1: when the origin reports 304 not-modified, `CachedRSSFeed.fetch`
returns `none` (Unchanged) with the cache state untouched (nothing mutated,
nothing persisted); on any successful fetch (status not 304, including a
first-time fetch) it returns the parsed feed, stores the `{etag, modified}`
validator the response carried for that URL, and immediately persists the
entire mapping (write-through: the new mapping is prepended to the persisted
snapshots). -/
theorem fetch_conditional_cache_spec
    (parse : Option String → Option String → ParsedFeed) (url : String)
    (st : CacheState) (feed : ParsedFeed)
    (hfeed : feed = parse ((cacheGet st.cache url).bind Validator.etag)
        ((cacheGet st.cache url).bind Validator.modified)) :
    (feed.status = some 304 → CachedRSSFeed.fetch parse url st = (none, st)) ∧
    (feed.status ≠ some 304 →
      ∃ c : Cache, CachedRSSFeed.fetch parse url st = (some feed, ⟨c, c :: st.saved⟩) ∧
        cacheGet c url = some ⟨feed.etag, feed.modified⟩) := by
  subst hfeed
  constructor
  · intro h
    simp [CachedRSSFeed.fetch, h]
  · intro h
    refine ⟨_, ?_, lookupA_setA_self st.cache url _⟩
    simp [CachedRSSFeed.fetch, h]

def wFeed304 : ParsedFeed := ⟨some 304, none, none, "", "", []⟩

def wFeedNew : ParsedFeed := ⟨some 200, some "E2", some "M2", "S", "A", []⟩

def wFeedFail : ParsedFeed := ⟨none, none, none, "", "", []⟩

def wSt : CacheState := ⟨[("u", ⟨some "E1", some "M1"⟩)], []⟩

theorem fetch_conditional_cache_spec_witness :
    (CachedRSSFeed.fetch (fun _ _ => wFeed304) "u" wSt = (none, wSt)) ∧
    ∃ c : Cache, CachedRSSFeed.fetch (fun _ _ => wFeedNew) "u" wSt
        = (some wFeedNew, ⟨c, c :: wSt.saved⟩) ∧
      cacheGet c "u" = some ⟨wFeedNew.etag, wFeedNew.modified⟩ := by
  constructor
  · exact (fetch_conditional_cache_spec (fun _ _ => wFeed304) "u" wSt wFeed304 rfl).1 rfl
  · exact (fetch_conditional_cache_spec (fun _ _ => wFeedNew) "u" wSt wFeedNew rfl).2
      (by decide)

/-- C10: for every parse result that does not carry status 304 — including a
failed fetch that carries no status and no validator tokens at all —
`CachedRSSFeed.fetch` overwrites the cached validator for the URL with
whatever (possibly null) tokens the result carries and immediately persists
the whole mapping; hence a transient fetch failure erases a previously
stored validator. -/
theorem fetch_overwrites_validator_non304
    (parse : Option String → Option String → ParsedFeed) (url : String)
    (st : CacheState)
    (h : (parse ((cacheGet st.cache url).bind Validator.etag)
        ((cacheGet st.cache url).bind Validator.modified)).status ≠ some 304) :
    (CachedRSSFeed.fetch parse url st).1
        = some (parse ((cacheGet st.cache url).bind Validator.etag)
            ((cacheGet st.cache url).bind Validator.modified)) ∧
    cacheGet (CachedRSSFeed.fetch parse url st).2.cache url
        = some ⟨(parse ((cacheGet st.cache url).bind Validator.etag)
              ((cacheGet st.cache url).bind Validator.modified)).etag,
            (parse ((cacheGet st.cache url).bind Validator.etag)
              ((cacheGet st.cache url).bind Validator.modified)).modified⟩ ∧
    (CachedRSSFeed.fetch parse url st).2.saved
        = (CachedRSSFeed.fetch parse url st).2.cache :: st.saved := by
  have h' : (parse ((lookupA st.cache url).bind Validator.etag)
      ((lookupA st.cache url).bind Validator.modified)).status ≠ some 304 := h
  refine ⟨?_, ?_, ?_⟩ <;>
    simp [CachedRSSFeed.fetch, cacheGet, h', lookupA_setA_self]

theorem fetch_overwrites_validator_non304_witness :
    cacheGet wSt.cache "u" = some ⟨some "E1", some "M1"⟩ ∧
    cacheGet (CachedRSSFeed.fetch (fun _ _ => wFeedFail) "u" wSt).2.cache "u"
      = some ⟨none, none⟩ ∧
    (CachedRSSFeed.fetch (fun _ _ => wFeedFail) "u" wSt).2.saved
      = (CachedRSSFeed.fetch (fun _ _ => wFeedFail) "u" wSt).2.cache :: wSt.saved := by
  refine ⟨by decide, ?_, ?_⟩
  · exact (fetch_overwrites_validator_non304 (fun _ _ => wFeedFail) "u" wSt (by decide)).2.1
  · exact (fetch_overwrites_validator_non304 (fun _ _ => wFeedFail) "u" wSt (by decide)).2.2

/-- The nine characters the regex class `[\\/*?:"<>|]` matches. -/
def illegalChars : List Char := ['\\', '/', '*', '?', ':', '"', '<', '>', '|']

/-- `PodcastDownloader.sanitize_filename` (line 63-64):
`re.sub(r'[\\/*?:"<>|]', "", name)`, i.e. deletion of exactly the characters
of `illegalChars`, every other character kept in order. -/
def sanitize_filename (name : String) : String :=
  ⟨name.data.filter (fun c => !(illegalChars.contains c))⟩

/-- C7: for every input string, `sanitize_filename` removes exactly the
characters `\ / * ? : " < > |` and preserves every other character in order
(its output is the in-order filtering of the input that drops exactly the
illegal characters, and contains no illegal character); in particular
`sanitize_filename "A/B:C" = "ABC"`. -/
theorem sanitize_filename_spec (s : String) :
    (sanitize_filename s).data = s.data.filter (fun c => !(illegalChars.contains c)) ∧
    ((sanitize_filename s).data.all (fun c => !(illegalChars.contains c))) = true ∧
    sanitize_filename "A/B:C" = "ABC" := by
  refine ⟨rfl, ?_, by decide⟩
  rw [List.all_eq_true]
  intro c hc
  have hc' : c ∈ s.data.filter (fun c => !(illegalChars.contains c)) := hc
  exact (List.mem_filter.mp hc').2

/-- A network-level exception raised by `urlopen` (all three are caught by
`download_file`'s `except` clauses). -/
inductive NetError where
  | httpError (code : Nat)
  | urlError (reason : String)
  | other (msg : String)
deriving Repr, DecidableEq

/-- An `urlopen` response as `download_file` consumes it: the HTTP status,
the body as the sequence of chunks `response.read(8192)` yields, and, when
the transfer or the local write fails mid-stream, the number of chunks that
were written before the exception (`none` = the whole body is read and
written without I/O error). -/
structure HttpResponse where
  status : Nat
  body : List (List Nat)
  failAfter : Option Nat
deriving Repr, DecidableEq

/-- The ID3 tag container, one field per frame the script writes
(`TIT2`, `TPE1`, `TALB`, `TDRC`, `COMM`, `WOAS`, `APIC`). -/
structure TagContainer where
  tit2 : Option String
  tpe1 : Option String
  talb : Option String
  tdrc : Option String
  comm : Option String
  woas : Option String
  apic : Option (List Nat)
deriving Repr, DecidableEq

/-- `ID3()` — the empty container used when the file has no tag header. -/
def TagContainer.empty : TagContainer := ⟨none, none, none, none, none, none, none⟩

/-- The content of a file on disk: downloaded audio bytes plus the
optionally embedded tag container. -/
structure FileContent where
  audio : List Nat
  tags : Option TagContainer
deriving Repr, DecidableEq

/-- The filesystem, path → file content. -/
abbrev FS := List (String × FileContent)

/-- `os.path.exists` / reading a file. -/
def fsGet (fs : FS) (p : String) : Option FileContent := lookupA fs p

/-- `PodcastDownloader.download_file` (lines 116-156).  `net` is the outcome
of `urlopen(Request(url))`.  The code catches every exception, so the
embedding is a total function returning the success flag and the new
filesystem:
* a raised network error is caught and `dest_path` is removed if present;
* a response with status other than 200 returns `False` with nothing
  written (the early return precedes the `open`);
* otherwise the chunks are streamed into `dest_path`; if an I/O error
  interrupts the stream the partial file is removed and `False` returned,
  and if the full body is written the function returns `True`. -/
def download_file (net : Except NetError HttpResponse) (fs : FS)
    (destPath : String) : Bool × FS :=
  match net with
  | Except.error _ => (false, removeA fs destPath)
  | Except.ok resp =>
    if resp.status ≠ 200 then
      (false, fs)
    else
      match resp.failAfter with
      | none => (true, setA fs destPath ⟨resp.body.flatten, none⟩)
      | some _ => (false, removeA fs destPath)

/-- The success condition in the claim's words: the HTTP status is
success-class (2xx) and the transfer is free of I/O errors, so the full
body can be (and per the claim, is) written. -/
def claimedSuccess (net : Except NetError HttpResponse) : Bool :=
  match net with
  | Except.error _ => false
  | Except.ok resp => (200 ≤ resp.status && resp.status < 300) && resp.failAfter == none

/-- C2 counterexample: a 204 response (success-class) whose empty body
involves no I/O error at all satisfies the claim's success condition, yet
`download_file` returns `false` (the code tests `status != 200`, not
success-class). -/
theorem download_success_class_counterexample :
    claimedSuccess (Except.ok ⟨204, [], none⟩) = true ∧
    (download_file (Except.ok ⟨204, [], none⟩) [] "d").1 = false := by decide

/-- C2 amended: `download_file` returns `true` exactly when the HTTP status
is exactly 200 (not merely success-class) and the full body was written
without I/O error; on any failure (network error, non-200 status, or an
I/O error mid-stream) it removes any partially-written file at the
destination (the resulting filesystem is unchanged or lacks the
destination path) and returns `false` — as a total function it cannot
raise past its boundary; and on success the destination holds exactly the
full response body. -/
theorem download_file_success_iff (net : Except NetError HttpResponse)
    (fs : FS) (destPath : String) :
    ((download_file net fs destPath).1 = true ↔
      ∃ resp, net = Except.ok resp ∧ resp.status = 200 ∧ resp.failAfter = none) ∧
    ((download_file net fs destPath).1 = false →
      (download_file net fs destPath).2 = fs ∨
        fsGet (download_file net fs destPath).2 destPath = none) ∧
    (∀ resp, net = Except.ok resp → resp.status = 200 → resp.failAfter = none →
      (download_file net fs destPath).2
        = setA fs destPath ⟨resp.body.flatten, none⟩) := by
  refine ⟨?_, ?_, ?_⟩
  · constructor
    · intro h
      match net with
      | Except.error e => simp [download_file] at h
      | Except.ok resp =>
        by_cases hs : resp.status = 200
        · match hf : resp.failAfter with
          | none => exact ⟨resp, rfl, hs, hf⟩
          | some k => simp [download_file, hs, hf] at h
        · simp [download_file, hs] at h
    · rintro ⟨resp, rfl, hs, hf⟩
      simp [download_file, hs, hf]
  · intro h
    match net with
    | Except.error e =>
      right
      exact lookupA_removeA_self fs destPath
    | Except.ok resp =>
      by_cases hs : resp.status = 200
      · match hf : resp.failAfter with
        | none => simp [download_file, hs, hf] at h
        | some k =>
          right
          have hd : download_file (Except.ok resp) fs destPath
              = (false, removeA fs destPath) := by
            simp [download_file, hs, hf]
          rw [hd]
          exact lookupA_removeA_self fs destPath
      · left
        simp [download_file, hs]
  · rintro resp rfl hs hf
    simp [download_file, hs, hf]

theorem download_file_success_iff_witness :
    (download_file (Except.ok ⟨200, [[1, 2]], none⟩) [] "d").1 = true ∧
    (download_file (Except.ok ⟨200, [[1, 2]], none⟩) [] "d").2
      = setA [] "d" ⟨[1, 2], none⟩ := by
  constructor
  · exact (download_file_success_iff (Except.ok ⟨200, [[1, 2]], none⟩) [] "d").1.mpr
      ⟨⟨200, [[1, 2]], none⟩, rfl, rfl, rfl⟩
  · exact (download_file_success_iff (Except.ok ⟨200, [[1, 2]], none⟩) [] "d").2.2
      ⟨200, [[1, 2]], none⟩ rfl rfl rfl

/-- The `metadata` dict built in the download loop.  `description` and
`link` are `Option` because `set_metadata` tests the dict for the presence
of those keys (`"description" in metadata`, `"link" in metadata`). -/
structure Metadata where
  title : String
  author : String
  album : String
  date : String
  description : Option String
  link : Option String
deriving Repr, DecidableEq

/-- `try: tags = ID3(mp3_path) except ID3NoHeaderError: tags = ID3()` —
the existing container of the file when it has one, else empty. -/
def loadTags (fs : FS) (mp3Path : String) : TagContainer :=
  match fsGet fs mp3Path with
  | some fc => fc.tags.getD TagContainer.empty
  | none => TagContainer.empty

/-- `PodcastDownloader.set_metadata` (lines 66-108).  `fetchImage` is the
outcome of `urlopen(image_url).read()`.  The textual frames are added
unconditionally (`TIT2`, `TPE1`, `TALB`, `TDRC`), `COMM`/`WOAS` when the
corresponding dict key is present, and the `APIC` frame only when an image
URL is supplied and its fetch succeeds — a fetch/embed failure is caught
(so the embedding stays total) and leaves the container as it was; finally
`tags.save(mp3_path)` writes the container into the file. -/
def set_metadata (fetchImage : String → Except String (List Nat)) (fs : FS)
    (mp3Path : String) (metadata : Metadata) (imageUrl : Option String) : FS :=
  let tags0 := loadTags fs mp3Path
  let tags1 : TagContainer :=
    ⟨some metadata.title, some metadata.author, some metadata.album,
      some metadata.date, tags0.comm, tags0.woas, tags0.apic⟩
  let tags2 : TagContainer :=
    match metadata.description with
    | some d => ⟨tags1.tit2, tags1.tpe1, tags1.talb, tags1.tdrc, some d, tags1.woas, tags1.apic⟩
    | none => tags1
  let tags3 : TagContainer :=
    match metadata.link with
    | some l => ⟨tags2.tit2, tags2.tpe1, tags2.talb, tags2.tdrc, tags2.comm, some l, tags2.apic⟩
    | none => tags2
  let tags4 : TagContainer :=
    match imageUrl with
    | none => tags3
    | some u =>
      match fetchImage u with
      | Except.ok bytes =>
        ⟨tags3.tit2, tags3.tpe1, tags3.talb, tags3.tdrc, tags3.comm, tags3.woas, some bytes⟩
      | Except.error _ => tags3
  let audio :=
    match fsGet fs mp3Path with
    | some fc => fc.audio
    | none => []
  setA fs mp3Path ⟨audio, some tags4⟩

/-- C9: when a cover-image URL is supplied and fetching the image fails,
`set_metadata` behaves exactly as if no image URL had been supplied (the
failure is caught, not propagated — the embedding stays a total function),
the textual frames (title, artist, album, date, and comment/link when the
metadata carries them) are still written, the container is still saved into
the file, and no art is added (the `APIC` frame is whatever the file's
prior container held). -/
theorem cover_failure_text_frames_saved
    (fetchImage : String → Except String (List Nat)) (fs : FS)
    (mp3Path u err : String) (metadata : Metadata)
    (hfail : fetchImage u = Except.error err) :
    set_metadata fetchImage fs mp3Path metadata (some u)
      = set_metadata fetchImage fs mp3Path metadata none ∧
    ∃ fc : FileContent,
      fsGet (set_metadata fetchImage fs mp3Path metadata (some u)) mp3Path = some fc ∧
      ∃ t : TagContainer, fc.tags = some t ∧
        t.tit2 = some metadata.title ∧
        t.tpe1 = some metadata.author ∧
        t.talb = some metadata.album ∧
        t.tdrc = some metadata.date ∧
        (∀ d, metadata.description = some d → t.comm = some d) ∧
        (∀ l, metadata.link = some l → t.woas = some l) ∧
        t.apic = (loadTags fs mp3Path).apic := by
  constructor
  · simp [set_metadata, hfail]
  · refine ⟨_, lookupA_setA_self fs mp3Path _, ?_⟩
    simp only [hfail]
    refine ⟨_, rfl, ?_⟩
    cases hd : metadata.description <;> cases hl : metadata.link <;>
      simp [hd, hl]

def wMeta : Metadata := ⟨"T", "Au", "Al", "2024-01-01", some "D", some "L"⟩

theorem cover_failure_text_frames_saved_witness :
    set_metadata (fun _ => Except.error "img") [] "f.mp3" wMeta (some "http://img")
      = set_metadata (fun _ => Except.error "img") [] "f.mp3" wMeta none ∧
    ∃ fc : FileContent,
      fsGet (set_metadata (fun _ => Except.error "img") [] "f.mp3" wMeta
          (some "http://img")) "f.mp3" = some fc ∧
      ∃ t : TagContainer, fc.tags = some t ∧
        t.tit2 = some wMeta.title ∧
        t.tpe1 = some wMeta.author ∧
        t.talb = some wMeta.album ∧
        t.tdrc = some wMeta.date ∧
        (∀ d, wMeta.description = some d → t.comm = some d) ∧
        (∀ l, wMeta.link = some l → t.woas = some l) ∧
        t.apic = (loadTags [] "f.mp3").apic :=
  cover_failure_text_frames_saved (fun _ => Except.error "img") [] "f.mp3"
    "http://img" "img" wMeta rfl

/-- `PodcastDownloader.get_audio_url` (lines 110-114): scan `entry.links`
in order and return the `href` of the first link whose MIME type is
`audio/mpeg`, else `None`. -/
def get_audio_url_links : List Link → Option String
  | [] => none
  | l :: rest => if l.type = "audio/mpeg" then some l.href else get_audio_url_links rest

def get_audio_url (entry : Entry) : Option String :=
  get_audio_url_links entry.links

/-- The file-name computation of the download loop (lines 190-197):
`sanitize(title) + ".mp3"`; when that is just `".mp3"` (sanitized title
empty) fall back on the raw `entry.acast_episodeid` (note: unsanitized)
when it is truthy, else the entry is skipped (`none`). -/
def targetName (e : Entry) : Option String :=
  let filename := sanitize_filename e.title ++ ".mp3"
  if filename = ".mp3" then
    if e.acast_episodeid ≠ "" then some (e.acast_episodeid ++ ".mp3") else none
  else some filename

/-- The `metadata` dict of the download loop (lines 172-185).  `parseDate`
abstracts `parsedate_to_datetime(published).strftime("%F")`, returning
`none` when the library call raises; the `except` clause substitutes
`"unknown"`. -/
def entryMetadata (parseDate : String → Option String) (feedTitle feedAuthor : String)
    (e : Entry) : Metadata :=
  let date :=
    match parseDate e.published with
    | some d => d
    | none => "unknown"
  ⟨e.title, e.author.getD feedAuthor, feedTitle, date, some e.description, some e.link⟩

/-- Observable actions of one run, in order: invocations of
`download_file`, invocations of `set_metadata`, and per-entry skips with
the logged reason. -/
inductive Event where
  | downloadCall (url : String) (destPath : String)
  | tagCall (path : String)
  | skip (reason : String)
deriving Repr, DecidableEq

/-- An event that touches an episode (network download or tag write), as
opposed to a logged skip. -/
def isEffectEvent : Event → Bool
  | Event.downloadCall _ _ => true
  | Event.tagCall _ => true
  | Event.skip _ => false

/-- One iteration of the `for entry in entries` loop of
`PodcastDownloader.download` (lines 171-210), in source order: build the
metadata (with the date fallback), read the image and audio URLs, compute
the file name (skipping when no usable name), skip when there is no
`audio/mpeg` link, skip when the target path already exists, and otherwise
download and — only on download success — tag. -/
def processEntry (net : String → Except NetError HttpResponse)
    (fetchImage : String → Except String (List Nat))
    (parseDate : String → Option String)
    (podcastDir feedTitle feedAuthor : String) (fs : FS) (e : Entry) :
    FS × List Event :=
  let metadata := entryMetadata parseDate feedTitle feedAuthor e
  let imageUrl := e.image
  let audioUrl := get_audio_url e
  match targetName e with
  | none => (fs, [Event.skip "no usable name"])
  | some filename =>
    let filePath := podcastDir ++ "/" ++ filename
    match audioUrl with
    | none => (fs, [Event.skip "no MP3 link"])
    | some url =>
      match fsGet fs filePath with
      | none =>
        let r := download_file (net url) fs filePath
        if r.1 then
          (set_metadata fetchImage r.2 filePath metadata imageUrl,
            [Event.downloadCall url filePath, Event.tagCall filePath])
        else
          (r.2, [Event.downloadCall url filePath, Event.skip "download failure"])
      | some _ => (fs, [Event.skip "already exists"])

/-- The whole entry loop, threading the filesystem and collecting events. -/
def processEntries (net : String → Except NetError HttpResponse)
    (fetchImage : String → Except String (List Nat))
    (parseDate : String → Option String)
    (podcastDir feedTitle feedAuthor : String) :
    FS → List Entry → FS × List Event
  | fs, [] => (fs, [])
  | fs, e :: rest =>
    let r1 := processEntry net fetchImage parseDate podcastDir feedTitle feedAuthor fs e
    let r2 := processEntries net fetchImage parseDate podcastDir feedTitle feedAuthor r1.1 rest
    (r2.1, r1.2 ++ r2.2)

/-- `PodcastDownloader.download` (lines 158-210): fetch the feed through
the cache (returning early with no effects when it is unchanged), derive
the show directory `output_dir/<feed title>`, and run the entry loop. -/
def PodcastDownloader.download (parse : Option String → Option String → ParsedFeed)
    (net : String → Except NetError HttpResponse)
    (fetchImage : String → Except String (List Nat))
    (parseDate : String → Option String)
    (rssUrl outputDir : String) (st : CacheState) (fs : FS) :
    CacheState × FS × List Event :=
  match CachedRSSFeed.fetch parse rssUrl st with
  | (none, st') => (st', fs, [])
  | (some feed, st') =>
    let podcastDir := outputDir ++ "/" ++ feed.title
    let r := processEntries net fetchImage parseDate podcastDir feed.title feed.author
      fs feed.entries
    (st', r.1, r.2)

/-- Two consecutive runs on the same inputs, the second starting from the
cache state and filesystem the first one left behind. -/
def runTwice (parse : Option String → Option String → ParsedFeed)
    (net : String → Except NetError HttpResponse)
    (fetchImage : String → Except String (List Nat))
    (parseDate : String → Option String)
    (rssUrl outputDir : String) (st : CacheState) (fs : FS) :
    CacheState × FS × List Event :=
  let r1 := PodcastDownloader.download parse net fetchImage parseDate rssUrl outputDir st fs
  PodcastDownloader.download parse net fetchImage parseDate rssUrl outputDir r1.1 r1.2.1

theorem append_mp3_eq (s : String) : (s ++ ".mp3" = ".mp3") ↔ s = "" := by
  constructor
  · intro h
    have hlen : (s ++ ".mp3").length = (".mp3" : String).length := by rw [h]
    rw [String.length_append] at hlen
    have hz : s.length = 0 := by omega
    have hd : s.data = [] := List.length_eq_zero.mp hz
    exact String.ext hd
  · intro h
    subst h
    rfl

def eNoTitle : Entry := ⟨"", "", none, "", "", none, [], "a/b"⟩

/-- C4 counterexample: for the entry with empty title and episode id
`"a/b"` the code's file name is the raw `"a/b.mp3"`, whereas the claimed
`sanitize(episodeId) + ".mp3"` is `"ab.mp3"` — the fallback name is not
sanitized (line 194 uses `entry.acast_episodeid` directly). -/
theorem episodeid_not_sanitized_counterexample :
    targetName eNoTitle = some "a/b.mp3" ∧
    sanitize_filename eNoTitle.acast_episodeid ++ ".mp3" = "ab.mp3" ∧
    ("a/b.mp3" : String) ≠ "ab.mp3" := by decide

/-- C4 amended: the file name is `sanitize(title) + ".mp3"`; when the
sanitized title is empty the name falls back on the raw (unsanitized)
episode id, `episodeId + ".mp3"`, when one is present (in particular an
empty title with episode id `"ep-42"` yields `"ep-42.mp3"`); when neither
is usable the entry is skipped with reason "no usable name" rather than
failing. -/
theorem filename_fallback_spec
    (net : String → Except NetError HttpResponse)
    (fetchImage : String → Except String (List Nat))
    (parseDate : String → Option String)
    (podcastDir feedTitle feedAuthor : String) (fs : FS) (e : Entry) :
    (sanitize_filename e.title ≠ "" →
      targetName e = some (sanitize_filename e.title ++ ".mp3")) ∧
    (sanitize_filename e.title = "" → e.acast_episodeid ≠ "" →
      targetName e = some (e.acast_episodeid ++ ".mp3")) ∧
    (sanitize_filename e.title = "" → e.acast_episodeid = "" →
      targetName e = none ∧
      processEntry net fetchImage parseDate podcastDir feedTitle feedAuthor fs e
        = (fs, [Event.skip "no usable name"])) ∧
    targetName ⟨"", "", none, "", "", none, [], "ep-42"⟩ = some "ep-42.mp3" := by
  refine ⟨?_, ?_, ?_, by decide⟩
  · intro h
    have hc : ¬ (sanitize_filename e.title ++ ".mp3" = ".mp3") :=
      fun hc => h ((append_mp3_eq _).mp hc)
    simp [targetName, hc]
  · intro h hid
    have hc : sanitize_filename e.title ++ ".mp3" = ".mp3" := (append_mp3_eq _).mpr h
    simp [targetName, hc, hid]
  · intro h hid
    have hc : sanitize_filename e.title ++ ".mp3" = ".mp3" := (append_mp3_eq _).mpr h
    have ht : targetName e = none := by simp [targetName, hc, hid]
    exact ⟨ht, by simp [processEntry, ht]⟩

def eEp42 : Entry := ⟨"", "", none, "", "", none, [], "ep-42"⟩

def eNameless : Entry := ⟨"?", "", none, "", "", none, [], ""⟩

def netOk : String → Except NetError HttpResponse := fun _ => Except.ok ⟨200, [[7]], none⟩

def imgFail : String → Except String (List Nat) := fun _ => Except.error "img"

def pdNone : String → Option String := fun _ => none

theorem filename_fallback_spec_witness :
    targetName eEp42 = some ("ep-42" ++ ".mp3") ∧
    (targetName eNameless = none ∧
      processEntry netOk imgFail pdNone "o/S" "S" "A" [] eNameless
        = ([], [Event.skip "no usable name"])) := by
  constructor
  · exact (filename_fallback_spec netOk imgFail pdNone "o/S" "S" "A" [] eEp42).2.1
      (by decide) (by decide)
  · exact (filename_fallback_spec netOk imgFail pdNone "o/S" "S" "A" [] eNameless).2.2.1
      (by decide) (by decide)

theorem get_audio_url_links_eq_find? (ls : List Link) :
    get_audio_url_links ls
      = (ls.find? (fun l => l.type == "audio/mpeg")).map Link.href := by
  induction ls with
  | nil => rfl
  | cons l rest ih =>
    by_cases hl : l.type = "audio/mpeg"
    · rw [List.find?_cons_of_pos _ (by simp [hl])]
      simp [get_audio_url_links, hl]
    · rw [List.find?_cons_of_neg _ (by simp [hl])]
      simpa [get_audio_url_links, hl] using ih

/-- C5: the audio URL is located by scanning the entry's links in order for
MIME type `audio/mpeg` (`get_audio_url` returns exactly the `href` of the
first such link); for an entry with no such link `get_audio_url` returns
`none`, the entry is skipped with a logged reason leaving the filesystem
untouched, and neither the downloader nor the tagger is invoked for it. -/
theorem no_audio_link_skip
    (net : String → Except NetError HttpResponse)
    (fetchImage : String → Except String (List Nat))
    (parseDate : String → Option String)
    (podcastDir feedTitle feedAuthor : String) (fs : FS) (e : Entry)
    (h : ∀ l ∈ e.links, l.type ≠ "audio/mpeg") :
    get_audio_url e = none ∧
    (∃ reason, processEntry net fetchImage parseDate podcastDir feedTitle feedAuthor fs e
        = (fs, [Event.skip reason])) ∧
    ∀ ls : List Link, get_audio_url_links ls
        = (ls.find? (fun l => l.type == "audio/mpeg")).map Link.href := by
  have ha : get_audio_url e = none := by
    rw [get_audio_url, get_audio_url_links_eq_find?]
    rw [List.find?_eq_none.mpr (by simpa using h)]
    rfl
  refine ⟨ha, ?_, get_audio_url_links_eq_find?⟩
  cases htn : targetName e with
  | none => exact ⟨"no usable name", by simp [processEntry, htn]⟩
  | some fn => exact ⟨"no MP3 link", by simp [processEntry, htn, ha]⟩

def eNoAudio : Entry := ⟨"T2", "", none, "", "", none, [⟨"text/html", "h"⟩], ""⟩

theorem no_audio_link_skip_witness :
    get_audio_url eNoAudio = none ∧
    ∃ reason, processEntry netOk imgFail pdNone "o/S" "S" "A" [] eNoAudio
      = ([], [Event.skip reason]) := by
  have h := no_audio_link_skip netOk imgFail pdNone "o/S" "S" "A" [] eNoAudio (by decide)
  exact ⟨h.1, h.2.1⟩

/-- C8: when parsing the entry's publish date fails, the date used in the
metadata is the sentinel `"unknown"`, and the observable actions of
processing the entry (skips, download invocation, tagging) are identical to
those under any other date-parse outcome — a date-parse failure never
aborts selection and never blocks the download of the audio content. -/
theorem date_fallback_unknown
    (parseDate parseDate2 : String → Option String)
    (feedTitle feedAuthor : String) (e : Entry)
    (h : parseDate e.published = none) :
    (entryMetadata parseDate feedTitle feedAuthor e).date = "unknown" ∧
    ∀ (net : String → Except NetError HttpResponse)
      (fetchImage : String → Except String (List Nat)) (podcastDir : String) (fs : FS),
      (processEntry net fetchImage parseDate podcastDir feedTitle feedAuthor fs e).2
        = (processEntry net fetchImage parseDate2 podcastDir feedTitle feedAuthor fs e).2 := by
  constructor
  · simp [entryMetadata, h]
  · intro net fetchImage podcastDir fs
    cases htn : targetName e with
    | none => simp [processEntry, htn]
    | some fn =>
      cases ha : get_audio_url e with
      | none => simp [processEntry, htn, ha]
      | some url =>
        cases hfs : fsGet fs (podcastDir ++ "/" ++ fn) with
        | none =>
          simp only [processEntry, htn, ha, hfs]
          cases hdl : (download_file (net url) fs (podcastDir ++ "/" ++ fn)).1 <;>
            simp [hdl]
        | some fc => simp [processEntry, htn, ha, hfs]

def eDated : Entry := ⟨"T3", "baddate", none, "", "", none, [⟨"audio/mpeg", "u3"⟩], ""⟩

theorem date_fallback_unknown_witness :
    (entryMetadata pdNone "S" "A" eDated).date = "unknown" ∧
    (processEntry netOk imgFail pdNone "o/S" "S" "A" [] eDated).2
      = (processEntry netOk imgFail (fun _ => some "2024-01-01") "o/S" "S" "A" [] eDated).2 := by
  have h := date_fallback_unknown pdNone (fun _ => some "2024-01-01") "S" "A" eDated rfl
  exact ⟨h.1, h.2 netOk imgFail "o/S" []⟩

/-- The target path of an entry that is a candidate for downloading: the
entry has a usable file name and an `audio/mpeg` link. -/
def eligibleTarget (podcastDir : String) (e : Entry) : Option String :=
  match targetName e, get_audio_url e with
  | some fn, some _ => some (podcastDir ++ "/" ++ fn)
  | _, _ => none

theorem set_metadata_eq_setA (fi : String → Except String (List Nat)) (fs : FS)
    (p : String) (md : Metadata) (iu : Option String) :
    ∃ fc : FileContent, set_metadata fi fs p md iu = setA fs p fc :=
  ⟨_, rfl⟩

theorem fsGet_set_metadata_pres (fi : String → Except String (List Nat)) (fs : FS)
    (p q : String) (md : Metadata) (iu : Option String)
    (h : fsGet fs q ≠ none) :
    fsGet (set_metadata fi fs p md iu) q ≠ none := by
  obtain ⟨fc, hfc⟩ := set_metadata_eq_setA fi fs p md iu
  rw [hfc]
  exact lookupA_setA_pres fs p q fc h

theorem fsGet_set_metadata_self (fi : String → Except String (List Nat)) (fs : FS)
    (p : String) (md : Metadata) (iu : Option String) :
    fsGet (set_metadata fi fs p md iu) p ≠ none := by
  obtain ⟨fc, hfc⟩ := set_metadata_eq_setA fi fs p md iu
  rw [hfc]
  simp [fsGet, lookupA_setA_self]

theorem processEntry_skip_of_present (net : String → Except NetError HttpResponse)
    (fi : String → Except String (List Nat)) (pd : String → Option String)
    (d ft fa : String) (fs : FS) (e : Entry) (p : String)
    (hpath : eligibleTarget d e = some p) (hex : fsGet fs p ≠ none) :
    processEntry net fi pd d ft fa fs e = (fs, [Event.skip "already exists"]) := by
  cases htn : targetName e with
  | none => simp [eligibleTarget, htn] at hpath
  | some fn =>
    cases ha : get_audio_url e with
    | none => simp [eligibleTarget, htn, ha] at hpath
    | some url =>
      have hp : d ++ "/" ++ fn = p := by
        simpa [eligibleTarget, htn, ha] using hpath
      subst hp
      cases hfs : fsGet fs (d ++ "/" ++ fn) with
      | none => exact absurd hfs hex
      | some fc => simp [processEntry, htn, ha, hfs]

theorem processEntry_skip_of_none (net : String → Except NetError HttpResponse)
    (fi : String → Except String (List Nat)) (pd : String → Option String)
    (d ft fa : String) (fs : FS) (e : Entry)
    (hpath : eligibleTarget d e = none) :
    ∃ reason, processEntry net fi pd d ft fa fs e = (fs, [Event.skip reason]) := by
  cases htn : targetName e with
  | none => exact ⟨"no usable name", by simp [processEntry, htn]⟩
  | some fn =>
    cases ha : get_audio_url e with
    | none => exact ⟨"no MP3 link", by simp [processEntry, htn, ha]⟩
    | some url => simp [eligibleTarget, htn, ha] at hpath

theorem processEntry_mono (net : String → Except NetError HttpResponse)
    (fi : String → Except String (List Nat)) (pd : String → Option String)
    (d ft fa : String) (fs : FS) (e : Entry) (q : String)
    (hnet : ∀ u, ∃ r, net u = Except.ok r ∧ r.status = 200 ∧ r.failAfter = none)
    (h : fsGet fs q ≠ none) :
    fsGet (processEntry net fi pd d ft fa fs e).1 q ≠ none := by
  cases htn : targetName e with
  | none => simpa [processEntry, htn] using h
  | some fn =>
    cases ha : get_audio_url e with
    | none => simpa [processEntry, htn, ha] using h
    | some url =>
      cases hfs : fsGet fs (d ++ "/" ++ fn) with
      | some fc => simpa [processEntry, htn, ha, hfs] using h
      | none =>
        obtain ⟨r, hr, hs, hf⟩ := hnet url
        have hdl : download_file (net url) fs (d ++ "/" ++ fn)
            = (true, setA fs (d ++ "/" ++ fn) ⟨r.body.flatten, none⟩) := by
          rw [hr]
          simp [download_file, hs, hf]
        have hpe : processEntry net fi pd d ft fa fs e
            = (set_metadata fi (setA fs (d ++ "/" ++ fn) ⟨r.body.flatten, none⟩)
                (d ++ "/" ++ fn) (entryMetadata pd ft fa e) e.image,
              [Event.downloadCall url (d ++ "/" ++ fn), Event.tagCall (d ++ "/" ++ fn)]) := by
          simp [processEntry, htn, ha, hfs, hdl]
        rw [hpe]
        show fsGet (set_metadata fi (setA fs (d ++ "/" ++ fn) ⟨r.body.flatten, none⟩)
            (d ++ "/" ++ fn) (entryMetadata pd ft fa e) e.image) q ≠ none
        exact fsGet_set_metadata_pres fi (setA fs (d ++ "/" ++ fn) ⟨r.body.flatten, none⟩)
          (d ++ "/" ++ fn) q (entryMetadata pd ft fa e) e.image
          (lookupA_setA_pres fs (d ++ "/" ++ fn) q ⟨r.body.flatten, none⟩ h)

theorem processEntry_establish (net : String → Except NetError HttpResponse)
    (fi : String → Except String (List Nat)) (pd : String → Option String)
    (d ft fa : String) (fs : FS) (e : Entry) (p : String)
    (hnet : ∀ u, ∃ r, net u = Except.ok r ∧ r.status = 200 ∧ r.failAfter = none)
    (hpath : eligibleTarget d e = some p) :
    fsGet (processEntry net fi pd d ft fa fs e).1 p ≠ none := by
  cases htn : targetName e with
  | none => simp [eligibleTarget, htn] at hpath
  | some fn =>
    cases ha : get_audio_url e with
    | none => simp [eligibleTarget, htn, ha] at hpath
    | some url =>
      have hp : d ++ "/" ++ fn = p := by
        simpa [eligibleTarget, htn, ha] using hpath
      subst hp
      cases hfs : fsGet fs (d ++ "/" ++ fn) with
      | some fc =>
        have hpe := processEntry_skip_of_present net fi pd d ft fa fs e (d ++ "/" ++ fn)
          (by simp [eligibleTarget, htn, ha]) (by simp [hfs])
        rw [hpe]
        simp [hfs]
      | none =>
        obtain ⟨r, hr, hs, hf⟩ := hnet url
        have hdl : download_file (net url) fs (d ++ "/" ++ fn)
            = (true, setA fs (d ++ "/" ++ fn) ⟨r.body.flatten, none⟩) := by
          rw [hr]
          simp [download_file, hs, hf]
        have hpe : processEntry net fi pd d ft fa fs e
            = (set_metadata fi (setA fs (d ++ "/" ++ fn) ⟨r.body.flatten, none⟩)
                (d ++ "/" ++ fn) (entryMetadata pd ft fa e) e.image,
              [Event.downloadCall url (d ++ "/" ++ fn), Event.tagCall (d ++ "/" ++ fn)]) := by
          simp [processEntry, htn, ha, hfs, hdl]
        rw [hpe]
        show fsGet (set_metadata fi (setA fs (d ++ "/" ++ fn) ⟨r.body.flatten, none⟩)
            (d ++ "/" ++ fn) (entryMetadata pd ft fa e) e.image) (d ++ "/" ++ fn) ≠ none
        exact fsGet_set_metadata_self fi (setA fs (d ++ "/" ++ fn) ⟨r.body.flatten, none⟩)
          (d ++ "/" ++ fn) (entryMetadata pd ft fa e) e.image

theorem processEntries_mono (net : String → Except NetError HttpResponse)
    (fi : String → Except String (List Nat)) (pd : String → Option String)
    (d ft fa : String) (l : List Entry) (fs : FS) (q : String)
    (hnet : ∀ u, ∃ r, net u = Except.ok r ∧ r.status = 200 ∧ r.failAfter = none)
    (h : fsGet fs q ≠ none) :
    fsGet (processEntries net fi pd d ft fa fs l).1 q ≠ none := by
  induction l generalizing fs with
  | nil => simpa [processEntries] using h
  | cons e rest ih =>
    simp only [processEntries]
    exact ih _ (processEntry_mono net fi pd d ft fa fs e q hnet h)

theorem processEntries_establish (net : String → Except NetError HttpResponse)
    (fi : String → Except String (List Nat)) (pd : String → Option String)
    (d ft fa : String) (l : List Entry) (fs : FS) (e : Entry) (p : String)
    (hnet : ∀ u, ∃ r, net u = Except.ok r ∧ r.status = 200 ∧ r.failAfter = none)
    (he : e ∈ l) (hpath : eligibleTarget d e = some p) :
    fsGet (processEntries net fi pd d ft fa fs l).1 p ≠ none := by
  induction l generalizing fs with
  | nil => cases he
  | cons a rest ih =>
    simp only [processEntries]
    rcases List.mem_cons.mp he with heq | hmem
    · subst heq
      exact processEntries_mono net fi pd d ft fa rest _ p hnet
        (processEntry_establish net fi pd d ft fa fs e p hnet hpath)
    · exact ih _ hmem

theorem processEntries_all_skip (net : String → Except NetError HttpResponse)
    (fi : String → Except String (List Nat)) (pd : String → Option String)
    (d ft fa : String) (l : List Entry) (fs : FS)
    (hall : ∀ e ∈ l, ∀ p, eligibleTarget d e = some p → fsGet fs p ≠ none) :
    (processEntries net fi pd d ft fa fs l).1 = fs ∧
    ((processEntries net fi pd d ft fa fs l).2.all (fun ev => !isEffectEvent ev)) = true := by
  induction l generalizing fs with
  | nil => exact ⟨rfl, rfl⟩
  | cons e rest ih =>
    have h1 : ∃ reason, processEntry net fi pd d ft fa fs e = (fs, [Event.skip reason]) := by
      cases hel : eligibleTarget d e with
      | none => exact processEntry_skip_of_none net fi pd d ft fa fs e hel
      | some p =>
        exact ⟨"already exists", processEntry_skip_of_present net fi pd d ft fa fs e p hel
          (hall e (List.mem_cons_self e rest) p hel)⟩
    obtain ⟨reason, hre⟩ := h1
    have ihres := ih fs (fun e' he' p hp => hall e' (List.mem_cons_of_mem _ he') p hp)
    simp only [processEntries, hre]
    refine ⟨ihres.1, ?_⟩
    rw [List.all_append, ihres.2]
    rfl

/-- C3: an entry whose computed download target path already exists on disk
is skipped with reason "already exists" — no download call, no tagging, and
the filesystem (hence the existing file's bytes) untouched; consequently,
when the remote feed is unchanged between runs and downloads succeed,
re-running on the state the first run left behind performs zero downloads
and zero tag writes and leaves the filesystem exactly as the first run left
it (idempotent re-run). -/
theorem existing_target_skip_and_idempotent_rerun
    (parse : Option String → Option String → ParsedFeed)
    (net : String → Except NetError HttpResponse)
    (fetchImage : String → Except String (List Nat))
    (parseDate : String → Option String)
    (rssUrl outputDir podcastDir feedTitle feedAuthor p : String)
    (st : CacheState) (fs : FS) (e : Entry) (pr : ParsedFeed)
    (hpath : eligibleTarget podcastDir e = some p)
    (hex : fsGet fs p ≠ none)
    (hparse : ∀ a b, parse a b = pr)
    (hnet : ∀ u, ∃ r, net u = Except.ok r ∧ r.status = 200 ∧ r.failAfter = none) :
    processEntry net fetchImage parseDate podcastDir feedTitle feedAuthor fs e
      = (fs, [Event.skip "already exists"]) ∧
    (runTwice parse net fetchImage parseDate rssUrl outputDir st fs).2.1
      = (PodcastDownloader.download parse net fetchImage parseDate rssUrl outputDir st fs).2.1 ∧
    ((runTwice parse net fetchImage parseDate rssUrl outputDir st fs).2.2.all
      (fun ev => !isEffectEvent ev)) = true := by
  refine ⟨processEntry_skip_of_present net fetchImage parseDate podcastDir feedTitle
    feedAuthor fs e p hpath hex, ?_⟩
  by_cases hst : pr.status = some 304
  · have hdl : ∀ (s : CacheState) (f : FS),
        PodcastDownloader.download parse net fetchImage parseDate rssUrl outputDir s f
          = (s, f, []) := by
      intro s f
      simp [PodcastDownloader.download, CachedRSSFeed.fetch, hparse, hst]
    constructor
    · simp [runTwice, hdl]
    · simp [runTwice, hdl]
  · have hdl : ∀ (s : CacheState) (f : FS),
        PodcastDownloader.download parse net fetchImage parseDate rssUrl outputDir s f
          = (⟨setA s.cache rssUrl ⟨pr.etag, pr.modified⟩,
                setA s.cache rssUrl ⟨pr.etag, pr.modified⟩ :: s.saved⟩,
              (processEntries net fetchImage parseDate (outputDir ++ "/" ++ pr.title)
                pr.title pr.author f pr.entries).1,
              (processEntries net fetchImage parseDate (outputDir ++ "/" ++ pr.title)
                pr.title pr.author f pr.entries).2) := by
      intro s f
      simp [PodcastDownloader.download, CachedRSSFeed.fetch, hparse, hst]
    have hall : ∀ e' ∈ pr.entries, ∀ q,
        eligibleTarget (outputDir ++ "/" ++ pr.title) e' = some q →
        fsGet (processEntries net fetchImage parseDate (outputDir ++ "/" ++ pr.title)
          pr.title pr.author fs pr.entries).1 q ≠ none := by
      intro e' he' q hq
      exact processEntries_establish net fetchImage parseDate (outputDir ++ "/" ++ pr.title)
        pr.title pr.author pr.entries fs e' q hnet he' hq
    have hskip := processEntries_all_skip net fetchImage parseDate
      (outputDir ++ "/" ++ pr.title) pr.title pr.author pr.entries
      (processEntries net fetchImage parseDate (outputDir ++ "/" ++ pr.title)
        pr.title pr.author fs pr.entries).1 hall
    constructor
    · simp only [runTwice, hdl]
      exact hskip.1
    · simp only [runTwice, hdl]
      exact hskip.2

def eAudio : Entry := ⟨"E1", "", none, "", "", none, [⟨"audio/mpeg", "u1"⟩], ""⟩

def prOne : ParsedFeed := ⟨some 200, some "E", some "M", "S", "A", [eAudio]⟩

def fs0 : FS := [("o/S/E1.mp3", ⟨[9], none⟩)]

def st0 : CacheState := ⟨[], []⟩

theorem existing_target_skip_and_idempotent_rerun_witness :
    processEntry netOk imgFail pdNone "o/S" "S" "A" fs0 eAudio
      = (fs0, [Event.skip "already exists"]) ∧
    (runTwice (fun _ _ => prOne) netOk imgFail pdNone "r" "o" st0 fs0).2.1
      = (PodcastDownloader.download (fun _ _ => prOne) netOk imgFail pdNone "r" "o" st0 fs0).2.1 ∧
    ((runTwice (fun _ _ => prOne) netOk imgFail pdNone "r" "o" st0 fs0).2.2.all
      (fun ev => !isEffectEvent ev)) = true :=
  existing_target_skip_and_idempotent_rerun (fun _ _ => prOne) netOk imgFail pdNone
    "r" "o" "o/S" "S" "A" "o/S/E1.mp3" st0 fs0 eAudio prOne (by decide) (by decide)
    (fun _ _ => rfl) (fun _ => ⟨⟨200, [[7]], none⟩, rfl, rfl, rfl⟩)

/-- Modelled from the spec: the program's configuration inputs — "one feed
URL (configuration), an output root directory (configuration), optional
maximum-episode count (configuration)".  The maximum-episode count is
absent from the final script under `src/` (its CLI takes only `--rss-url`
and `--output-dir`); the spec records it from the repository's earlier
iterations of the same design. -/
structure Config where
  rssUrl : String
  outputDir : String
  maxEpisodes : Option Nat
deriving Repr, DecidableEq

/-- Modelled from the spec: the Episode Selector's truncation, missing from
`src/acast_dl.py` — "Truncates the entry sequence to the configured maximum
count when set (keeps feed order, i.e. the first N entries as delivered by
the feed ... not re-sorted)"; when no count is set the sequence is left
unchanged. -/
def truncateEntries (maxCount : Option Nat) (entries : List Entry) : List Entry :=
  match maxCount with
  | none => entries
  | some n => entries.take n

/-- C6: when a maximum-episode count `n` is configured, episode selection
truncates the feed's entry sequence to the first `n` entries in feed order
before processing: the result is an initial segment of the entry sequence
(so no re-sorting) of length `min n (number of entries)`; the count is a
configuration input of the program. -/
theorem truncate_entries_first_n (cfg : Config) (entries : List Entry) (n : Nat)
    (h : cfg.maxEpisodes = some n) :
    truncateEntries cfg.maxEpisodes entries = entries.take n ∧
    (∃ rest, entries = truncateEntries cfg.maxEpisodes entries ++ rest) ∧
    (truncateEntries cfg.maxEpisodes entries).length = min n entries.length := by
  rw [h]
  refine ⟨rfl, ⟨entries.drop n, ?_⟩, ?_⟩
  · exact (List.take_append_drop n entries).symm
  · simp [truncateEntries, List.length_take]

theorem truncate_entries_first_n_witness :
    truncateEntries (Config.mk "r" "o" (some 2)).maxEpisodes [eAudio, eDated, eNoAudio]
      = [eAudio, eDated, eNoAudio].take 2 ∧
    (∃ rest, [eAudio, eDated, eNoAudio]
      = truncateEntries (Config.mk "r" "o" (some 2)).maxEpisodes
          [eAudio, eDated, eNoAudio] ++ rest) ∧
    (truncateEntries (Config.mk "r" "o" (some 2)).maxEpisodes
        [eAudio, eDated, eNoAudio]).length
      = min 2 [eAudio, eDated, eNoAudio].length :=
  truncate_entries_first_n ⟨"r", "o", some 2⟩ [eAudio, eDated, eNoAudio] 2 rfl

end AcastDl
